import Mathlib

/-!
Verification development for the kowl cluster-metadata aggregation layer.

The Go sources are shallowly embedded: Go `int64`/`int` values are `Int`
with explicit 64-bit wraparound on addition, Go `error` values are
`Option String` (`none` = nil), Go slices are `List`, Go maps are
association lists with Go-map assignment (replace-or-append) semantics,
and fallible functions return `Except`.
-/

namespace Kowl

/-- Two's-complement 64-bit wraparound: normalises an integer into
`[-2^63, 2^63)`, as Go `int64` (and `int` on 64-bit platforms) arithmetic does. -/
def wrap64 (x : Int) : Int := (x + 2 ^ 63) % 2 ^ 64 - 2 ^ 63

/-- Go `int64` addition (wraps on overflow). -/
def i64add (a b : Int) : Int := wrap64 (a + b)

/-- Summation by repeated Go `int64` addition starting from 0, the way the
aggregation loops accumulate their rollup totals. -/
def sum64 (l : List Int) : Int := l.foldl i64add 0

/-- The representable range of a Go `int64`. -/
def inRange64 (x : Int) : Prop := -(2 ^ 63) ≤ x ∧ x < 2 ^ 63

/-- Model of the external franz-go `kerr.ErrorForCode`: returns nil (`none`)
exactly for protocol error code 0, and a typed error with a non-empty
message (`Error()` string) for every non-zero code. -/
def errorForCode (c : Int) : Option String :=
  if c = 0 then none else some ("kafka error code " ++ toString c)

/-! ## Data model: broker log-directory aggregation (pkg/owl/log_dir_broker.go) -/

/-- Model of `kgo.BrokerMetadata`: carried verbatim by the aggregation. -/
structure BrokerMetadata where
  nodeID : Int
  host : String
  port : Int
  rack : Option String
  deriving Repr, DecidableEq

/-- Raw `kmsg.DescribeLogDirsResponseDirTopicPartition`. -/
structure KmsgLogDirPartition where
  partition : Int
  size : Int
  offsetLag : Int
  deriving Repr, DecidableEq

/-- Raw `kmsg.DescribeLogDirsResponseDirTopic`. -/
structure KmsgLogDirTopic where
  topic : String
  partitions : List KmsgLogDirPartition
  deriving Repr, DecidableEq

/-- Raw `kmsg.DescribeLogDirsResponseDir`. -/
structure KmsgLogDir where
  errorCode : Int
  dir : String
  topics : List KmsgLogDirTopic
  deriving Repr, DecidableEq

/-- Raw `kmsg.DescribeLogDirsResponse` (the per-broker payload). -/
structure KmsgLogDirs where
  dirs : List KmsgLogDir
  deriving Repr, DecidableEq

/-- One element of the Cluster Client Adapter's `DescribeLogDirs` result:
broker metadata, an optional broker-level error, and the raw payload. -/
structure DescribeLogDirsResponse where
  brokerMetadata : BrokerMetadata
  error : Option String
  logDirs : KmsgLogDirs
  deriving Repr, DecidableEq

/-- Model of `owl.LogDirPartition`. -/
structure LogDirPartition where
  partitionID : Int
  offsetLag : Int
  sizeBytes : Int
  deriving Repr, DecidableEq

/-- Model of `owl.LogDirTopic`. -/
structure LogDirTopic where
  topicName : String
  totalSizeBytes : Int
  partitions : List LogDirPartition
  deriving Repr, DecidableEq

/-- Model of `owl.LogDir`. -/
structure LogDir where
  error : Option String
  absolutePath : String
  totalSizeBytes : Int
  topics : List LogDirTopic
  partitionCount : Int
  deriving Repr, DecidableEq

/-- Model of `owl.LogDirsByBroker`. -/
structure LogDirsByBroker where
  brokerMeta : BrokerMetadata
  error : Option String
  logDirs : List LogDir
  totalSizeBytes : Int
  topicCount : Int
  partitionCount : Int
  deriving Repr, DecidableEq

/-- The inner topic loop of `logDirsByBroker`: builds one `LogDirTopic`,
accumulating the topic's byte total over its partitions. -/
def buildLogDirTopic (t : KmsgLogDirTopic) : LogDirTopic :=
  { topicName := t.topic
    totalSizeBytes := sum64 (t.partitions.map (·.size))
    partitions := t.partitions.map (fun p =>
      { partitionID := p.partition, offsetLag := p.offsetLag, sizeBytes := p.size }) }

/-- The per-directory body of `logDirsByBroker`: on a directory-level error
code, a `LogDir` carrying the error and nothing else; otherwise the walked
topics with the directory's byte and partition rollups. -/
def buildLogDir (d : KmsgLogDir) : LogDir :=
  match errorForCode d.errorCode with
  | some e =>
    { error := some e, absolutePath := d.dir, totalSizeBytes := 0
      topics := [], partitionCount := 0 }
  | none =>
    let topics := d.topics.map buildLogDirTopic
    { error := none
      absolutePath := d.dir
      totalSizeBytes := sum64 (topics.map (·.totalSizeBytes))
      topics := topics
      partitionCount := sum64 (topics.map (fun t => (t.partitions.length : Int))) }

/-- One iteration of the directory loop of `logDirsByBroker`: append the
directory; on a directory-level error `continue` without touching the
broker rollups, otherwise accumulate the broker rollups. -/
def brokerDirStep (acc : LogDirsByBroker) (d : KmsgLogDir) : LogDirsByBroker :=
  let ld := buildLogDir d
  match errorForCode d.errorCode with
  | some _ => { acc with logDirs := acc.logDirs ++ [ld] }
  | none =>
    { acc with
      logDirs := acc.logDirs ++ [ld]
      totalSizeBytes := i64add acc.totalSizeBytes ld.totalSizeBytes
      topicCount := i64add acc.topicCount (ld.topics.length : Int)
      partitionCount := i64add acc.partitionCount ld.partitionCount }

/-- The per-broker body of `logDirsByBroker`: on a broker-level error, only
the identity and the error are kept (`continue`); otherwise the broker's
directories are walked and the rollups accumulated. -/
def buildBrokerLogDirs (r : DescribeLogDirsResponse) : LogDirsByBroker :=
  let init : LogDirsByBroker :=
    { brokerMeta := r.brokerMetadata, error := r.error, logDirs := []
      totalSizeBytes := 0, topicCount := 0, partitionCount := 0 }
  match r.error with
  | some _ => init
  | none => r.logDirs.dirs.foldl brokerDirStep init

/-- Go-map assignment `m[k] = v`: replace the entry if the key is present,
otherwise add a new entry. -/
def goMapInsert (m : List (Int × LogDirsByBroker)) (k : Int) (v : LogDirsByBroker) :
    List (Int × LogDirsByBroker) :=
  if m.any (fun kv => kv.1 = k) then
    m.map (fun kv => if kv.1 = k then (k, v) else kv)
  else
    m ++ [(k, v)]

/-- Go-map lookup `m[k]`. -/
def mapLookup (m : List (Int × LogDirsByBroker)) (k : Int) : Option LogDirsByBroker :=
  (m.find? (fun kv => kv.1 = k)).map (·.2)

/-- Baseline construction for failure-isolation statements: the same broker
response with the error-marked raw directories removed. -/
def dropErrDirs (r : DescribeLogDirsResponse) : DescribeLogDirsResponse :=
  { brokerMetadata := r.brokerMetadata
    error := r.error
    logDirs := { dirs := r.logDirs.dirs.filter (fun d => errorForCode d.errorCode = none) } }

/-- Embedding of `Service.logDirsByBroker`: aggregates the adapter's per-broker raw
reports into a map keyed by broker id, and always returns a nil overall
error. -/
def logDirsByBroker (responses : List DescribeLogDirsResponse) :
    List (Int × LogDirsByBroker) × Option String :=
  (responses.foldl
    (fun result r => goMapInsert result r.brokerMetadata.nodeID (buildBrokerLogDirs r))
    [], none)

/-! ## Data model: reassignment translator (pkg/owl, partition_reassignments) -/

/-- Raw `kmsg.ListPartitionReassignmentsResponseTopicPartition`. -/
structure KmsgReassignPartition where
  partition : Int
  replicas : List Int
  addingReplicas : List Int
  removingReplicas : List Int
  deriving Repr, DecidableEq

/-- Raw `kmsg.ListPartitionReassignmentsResponseTopic`. -/
structure KmsgReassignTopic where
  topic : String
  partitions : List KmsgReassignPartition
  deriving Repr, DecidableEq

/-- Raw `kmsg.ListPartitionReassignmentsResponse` (cluster-level). -/
structure KmsgListReassignmentsResponse where
  errorCode : Int
  topics : List KmsgReassignTopic
  deriving Repr, DecidableEq

/-- Model of `owl.PartitionReassignmentsPartition`. -/
structure PartitionReassignmentsPartition where
  partitionID : Int
  addingReplicas : List Int
  removingReplicas : List Int
  replicas : List Int
  deriving Repr, DecidableEq

/-- Model of `owl.PartitionReassignments`. -/
structure PartitionReassignments where
  topicName : String
  partitions : List PartitionReassignmentsPartition
  deriving Repr, DecidableEq

/-- The per-partition body of the list translation. The source assigns
`partition.RemovingReplicas` to BOTH `RemovingReplicas` and `Replicas`
(`Replicas: partition.RemovingReplicas`); this embedding reproduces that
assignment literally. -/
def translateReassignPartition (partition : KmsgReassignPartition) :
    PartitionReassignmentsPartition :=
  { partitionID := partition.partition
    addingReplicas := partition.addingReplicas
    removingReplicas := partition.removingReplicas
    replicas := partition.removingReplicas }

/-- Embedding of `Service.ListPartitionReassignments`. The adapter call's own outcome is
the `call` argument. -/
def ListPartitionReassignments (call : Except String KmsgListReassignmentsResponse) :
    Except String (List PartitionReassignments) :=
  match call with
  | .error e => .error ("failed to list partition reassignments: " ++ e)
  | .ok reassignments =>
    match errorForCode reassignments.errorCode with
    | some e => .error ("failed to list partition reassignments. Inner error: " ++ e)
    | none =>
      .ok (reassignments.topics.map (fun topic =>
        { topicName := topic.topic
          partitions := topic.partitions.map translateReassignPartition }))

/-- Raw `kmsg.AlterPartitionAssignmentsResponseTopicPartition`. -/
structure KmsgAlterPartition where
  partition : Int
  errorCode : Int
  errorMessage : Option String
  deriving Repr, DecidableEq

/-- Raw `kmsg.AlterPartitionAssignmentsResponseTopic`. -/
structure KmsgAlterTopic where
  topic : String
  partitions : List KmsgAlterPartition
  deriving Repr, DecidableEq

/-- Raw `kmsg.AlterPartitionAssignmentsResponse` (with its top-level error code). -/
structure KmsgAlterResponse where
  errorCode : Int
  topics : List KmsgAlterTopic
  deriving Repr, DecidableEq

/-- Model of `owl.AlterPartitionReassignmentsPartitionResponse`. -/
structure AlterPartitionReassignmentsPartitionResponse where
  partitionID : Int
  errorCode : String
  errorMessage : Option String
  deriving Repr, DecidableEq

/-- Model of `owl.AlterPartitionReassignmentsResponse`. -/
structure AlterPartitionReassignmentsResponse where
  topicName : String
  partitions : List AlterPartitionReassignmentsPartitionResponse
  deriving Repr, DecidableEq

/-- The per-partition body of the alter translation: the raw code is turned
into a human-readable string, empty on success. -/
def translateAlterPartition (partition : KmsgAlterPartition) :
    AlterPartitionReassignmentsPartitionResponse :=
  { partitionID := partition.partition
    errorCode := match errorForCode partition.errorCode with
      | some e => e
      | none => ""
    errorMessage := partition.errorMessage }

/-- Embedding of `Service.AlterPartitionAssignments`. -/
def AlterPartitionAssignments (call : Except String KmsgAlterResponse) :
    Except String (List AlterPartitionReassignmentsResponse) :=
  match call with
  | .error e => .error ("failed to reassign partitions: " ++ e)
  | .ok kRes =>
    match errorForCode kRes.errorCode with
    | some e => .error ("failed to reassign partitions. Inner error: " ++ e)
    | none =>
      .ok (kRes.topics.map (fun topic =>
        { topicName := topic.topic
          partitions := topic.partitions.map translateAlterPartition }))

/-! ## Data model: HTTP handlers and authorization hooks (pkg/api) -/

/-- Model of `rest.Error` as the handlers observe it. -/
structure RestError where
  status : Int
  message : String
  deriving Repr, DecidableEq

/-- Model of `owl.TopicSummary`: the handler reads `TopicName` and writes
`AllowedActions`; `info` stands for the remaining fields, which the handler
never touches. -/
structure TopicSummary where
  topicName : String
  allowedActions : List String
  info : String
  deriving Repr, DecidableEq

/-- Model of `owl.ConsumerGroupOverview`: the handler reads `GroupID` and writes
`AllowedActions`; `info` stands for the remaining untouched fields. -/
structure ConsumerGroupOverview where
  groupID : String
  allowedActions : List String
  info : String
  deriving Repr, DecidableEq

/-- The `OwlHooks` interface restricted to the hooks these handlers call.
Each Go hook returns `(value, *rest.Error)`; that multi-return is a pair. -/
structure OwlHooks where
  canSeeTopic : String → Bool × Option RestError
  allowedTopicActions : String → List String × Option RestError
  canSeeConsumerGroup : String → Bool × Option RestError
  allowedConsumerGroupActions : String → List String × Option RestError

/-- The topic loop of `handleGetTopics`. `visibleTopics` holds POINTERS
into the aggregated slice, and `topic.AllowedActions` is assigned through
the pointer after the visibility append, so the annotation reaches both the
full list (first component) and the visible list (second component); the
allowed-actions hook runs — and can abort — even for a hidden topic. -/
def processTopics (hooks : OwlHooks) :
    List TopicSummary → Except RestError (List TopicSummary × List TopicSummary)
  | [] => .ok ([], [])
  | topic :: rest =>
    match (hooks.canSeeTopic topic.topicName).2 with
    | some e => .error e
    | none =>
      match (hooks.allowedTopicActions topic.topicName).2 with
      | some e => .error e
      | none =>
        match processTopics hooks rest with
        | .error e => .error e
        | .ok (allTopics, visible) =>
          let annotated := { topic with
            allowedActions := (hooks.allowedTopicActions topic.topicName).1 }
          .ok (annotated :: allTopics,
            if (hooks.canSeeTopic topic.topicName).1
            then annotated :: visible else visible)

/-- Embedding of `handleGetTopics`: a failed overview is a 500; otherwise the response
body is the visible-topics list produced by the loop. -/
def handleGetTopics (overview : Except String (List TopicSummary)) (hooks : OwlHooks) :
    Except RestError (List TopicSummary) :=
  match overview with
  | .error _ => .error { status := 500, message := "Could not list topics from Kafka cluster" }
  | .ok topics =>
    match processTopics hooks topics with
    | .error e => .error e
    | .ok (_, visible) => .ok visible

/-- The group loop of `handleGetConsumerGroups`: a hidden group is skipped
with `continue` BEFORE its allowed-actions hook is consulted. -/
def processGroups (hooks : OwlHooks) :
    List ConsumerGroupOverview → Except RestError (List ConsumerGroupOverview)
  | [] => .ok []
  | group :: rest =>
    match (hooks.canSeeConsumerGroup group.groupID).2 with
    | some e => .error e
    | none =>
      if (hooks.canSeeConsumerGroup group.groupID).1 then
        match (hooks.allowedConsumerGroupActions group.groupID).2 with
        | some e => .error e
        | none =>
          match processGroups hooks rest with
          | .error e => .error e
          | .ok visible =>
            .ok ({ group with
              allowedActions := (hooks.allowedConsumerGroupActions group.groupID).1 }
              :: visible)
      else
        processGroups hooks rest

/-- Embedding of `handleGetConsumerGroups`. -/
def handleGetConsumerGroups (overview : Except String (List ConsumerGroupOverview))
    (hooks : OwlHooks) : Except RestError (List ConsumerGroupOverview) :=
  match overview with
  | .error _ => .error { status := 500, message := "Could not get consumer groups overview" }
  | .ok groups =>
    match processGroups hooks groups with
    | .error e => .error e
    | .ok visible => .ok visible

/-! ## Data model: version loading (pkg/api, loadVersionInfo) -/

/-- Model of `versionInfo`; the Go zero time is modelled as timestamp 0. -/
structure VersionInfo where
  gitSha : String
  gitShaBusiness : String
  gitRef : String
  gitRefBusiness : String
  timestamp : Int
  deriving Repr, DecidableEq

/-- Embedding of `loadVersionInfo`: `env` models `os.Getenv` (empty string when unset);
the Go function's unconditional `panic("todo")` is a thrown error; the Go
statements after the panic are kept, bound after the throw, so the
embedding preserves the (unreachable) tail. -/
def loadVersionInfo (env : String → String) : Except String VersionInfo :=
  let version : VersionInfo :=
    { gitSha := env "REACT_APP_KOWL_GIT_SHA"
      gitRef := env "REACT_APP_KOWL_GIT_REF"
      gitShaBusiness := env "REACT_APP_KOWL_BUSINESS_GIT_SHA"
      gitRefBusiness := env "REACT_APP_KOWL_BUSINESS_GIT_REF"
      timestamp := 0 }
  let version :=
    if version.gitSha = "" then { version with gitSha := "dev" } else version
  let timestamp := env "REACT_APP_KOWL_TIMESTAMP"
  (Except.error "todo" : Except String Unit).bind (fun _ =>
    if version.gitSha.length = 0 then
      Except.ok version
    else
      match timestamp.toInt? with
      | none => Except.ok version
      | some t1 => Except.ok { version with timestamp := t1 })

/-! ## Concrete sample inputs (used to instantiate the theorems) -/

/-- The spec's concrete scenario: one directory holding topic "orders" with
two partitions of 100 and 150 bytes. -/
def ordersDir : KmsgLogDir :=
  { errorCode := 0
    dir := "/var/lib/kafka"
    topics := [{ topic := "orders"
                 partitions := [{ partition := 0, size := 100, offsetLag := 0 },
                                { partition := 1, size := 150, offsetLag := 5 }] }] }

/-- Broker 1: healthy, reporting `ordersDir`. -/
def resp1 : DescribeLogDirsResponse :=
  { brokerMetadata := { nodeID := 1, host := "b1", port := 9092, rack := none }
    error := none
    logDirs := { dirs := [ordersDir] } }

/-- Broker 2: its per-broker call failed with a connection error. -/
def resp2 : DescribeLogDirsResponse :=
  { brokerMetadata := { nodeID := 2, host := "b2", port := 9092, rack := none }
    error := some "connection refused"
    logDirs := { dirs := [] } }

/-- Broker 3: healthy, also reporting `ordersDir`. -/
def resp3 : DescribeLogDirsResponse :=
  { brokerMetadata := { nodeID := 3, host := "b3", port := 9092, rack := none }
    error := none
    logDirs := { dirs := [ordersDir] } }

/-- The spec scenario's adapter result: brokers 1, 2 (failed), 3. -/
def sampleResponses : List DescribeLogDirsResponse := [resp1, resp2, resp3]

/-- The expected aggregate for broker 1 in the spec scenario. -/
def broker1Agg : LogDirsByBroker :=
  { brokerMeta := { nodeID := 1, host := "b1", port := 9092, rack := none }
    error := none
    logDirs := [{ error := none
                  absolutePath := "/var/lib/kafka"
                  totalSizeBytes := 250
                  topics := [{ topicName := "orders"
                               totalSizeBytes := 250
                               partitions := [{ partitionID := 0, offsetLag := 0, sizeBytes := 100 },
                                              { partitionID := 1, offsetLag := 5, sizeBytes := 150 }] }]
                  partitionCount := 2 }]
    totalSizeBytes := 250
    topicCount := 1
    partitionCount := 2 }

/-- Two adapter responses claiming the same broker id 1. -/
def dupResponses : List DescribeLogDirsResponse :=
  [{ brokerMetadata := { nodeID := 1, host := "b1", port := 9092, rack := none }
     error := some "boom"
     logDirs := { dirs := [] } },
   { brokerMetadata := { nodeID := 1, host := "b1", port := 9092, rack := none }
     error := none
     logDirs := { dirs := [ordersDir] } }]

/-- The spec's reassignment round-trip partition: adding [4], removing [1],
full target replica set [1,2,3,4]. -/
def c1part : KmsgReassignPartition :=
  { partition := 0, replicas := [1, 2, 3, 4], addingReplicas := [4], removingReplicas := [1] }

/-- A successful cluster-level listing holding only `c1part`. -/
def c1sample : KmsgListReassignmentsResponse :=
  { errorCode := 0, topics := [{ topic := "t", partitions := [c1part] }] }

/-- A successful alter response: partition 0 accepted, partition 1 failed
with protocol code 9 and a node-supplied message. -/
def c7sample : KmsgAlterResponse :=
  { errorCode := 0
    topics := [{ topic := "t"
                 partitions := [{ partition := 0, errorCode := 0, errorMessage := none },
                                { partition := 1, errorCode := 9, errorMessage := some "broken" }] }] }

/-- Hooks for the handler scenarios: topic "secret" and group "hidden" are
not visible; the allowed-actions hook for groups FAILS on the hidden group. -/
def sampleHooks : OwlHooks :=
  { canSeeTopic := fun n => (n != "secret", none)
    allowedTopicActions := fun n => (["seeTopic", n], none)
    canSeeConsumerGroup := fun g => (g != "hidden", none)
    allowedConsumerGroupActions := fun g =>
      (["seeGroup"], if g = "hidden" then some { status := 500, message := "boom" } else none) }

/-- Two aggregated topics, one visible and one hidden. -/
def sampleTopics : List TopicSummary :=
  [{ topicName := "orders", allowedActions := [], info := "x" },
   { topicName := "secret", allowedActions := [], info := "y" }]

/-- Two aggregated groups, one hidden (whose actions hook errors) and one
visible. -/
def sampleGroups : List ConsumerGroupOverview :=
  [{ groupID := "hidden", allowedActions := [], info := "x" },
   { groupID := "g2", allowedActions := [], info := "y" }]

/-! ## Arithmetic lemmas about 64-bit accumulation -/

theorem wrap64_inRange (x : Int) : inRange64 (wrap64 x) := by
  have h1 : 0 ≤ (x + 2 ^ 63) % 2 ^ 64 := Int.emod_nonneg _ (by norm_num)
  have h2 : (x + 2 ^ 63) % 2 ^ 64 < 2 ^ 64 := Int.emod_lt_of_pos _ (by norm_num)
  unfold wrap64 inRange64
  omega

theorem wrap64_of_inRange (x : Int) (h : inRange64 x) : wrap64 x = x := by
  obtain ⟨h1, h2⟩ := h
  unfold wrap64
  rw [Int.emod_eq_of_lt (by omega) (by omega)]
  omega

theorem inRange64_zero : inRange64 0 := by
  unfold inRange64
  norm_num

theorem i64add_inRange (a b : Int) : inRange64 (i64add a b) := wrap64_inRange _

theorem i64add_zero (a : Int) (h : inRange64 a) : i64add a 0 = a := by
  unfold i64add
  rw [Int.add_zero]
  exact wrap64_of_inRange a h

/-- A fold that skips error-marked entries equals the plain 64-bit fold of
the projected values, provided every skipped entry projects to 0. -/
theorem foldl_skip_eq_foldl_i64add (f : LogDir → Int) :
    ∀ (l : List LogDir) (a : Int), inRange64 a →
      (∀ ld ∈ l, ld.error ≠ none → f ld = 0) →
      l.foldl (fun acc ld => match ld.error with
        | some _ => acc
        | none => i64add acc (f ld)) a
      = (l.map f).foldl i64add a
  | [], _, _, _ => rfl
  | ld :: rest, a, ha, hz => by
    simp only [List.foldl_cons, List.map_cons]
    cases h : ld.error with
    | some e =>
      have hf : f ld = 0 := hz ld (by simp) (by simp [h])
      rw [hf, i64add_zero a ha]
      exact foldl_skip_eq_foldl_i64add f rest a ha
        (fun x hx => hz x (List.mem_cons_of_mem _ hx))
    | none =>
      exact foldl_skip_eq_foldl_i64add f rest (i64add a (f ld)) (i64add_inRange _ _)
        (fun x hx => hz x (List.mem_cons_of_mem _ hx))

/-! ## Structural lemmas about the per-directory and per-broker bodies -/

theorem buildLogDir_error (d : KmsgLogDir) :
    (buildLogDir d).error = errorForCode d.errorCode := by
  unfold buildLogDir
  cases errorForCode d.errorCode <;> rfl

theorem buildLogDir_of_err (d : KmsgLogDir) (e : String)
    (h : errorForCode d.errorCode = some e) :
    buildLogDir d = { error := some e, absolutePath := d.dir, totalSizeBytes := 0
                      topics := [], partitionCount := 0 } := by
  unfold buildLogDir
  rw [h]

theorem buildLogDir_of_ok (d : KmsgLogDir) (h : errorForCode d.errorCode = none) :
    buildLogDir d =
      { error := none
        absolutePath := d.dir
        totalSizeBytes := sum64 ((d.topics.map buildLogDirTopic).map (·.totalSizeBytes))
        topics := d.topics.map buildLogDirTopic
        partitionCount := sum64 ((d.topics.map buildLogDirTopic).map
          (fun t => (t.partitions.length : Int))) } := by
  unfold buildLogDir
  rw [h]

/-- Zero-rollup facts about an error-marked directory entry. -/
theorem buildLogDir_err_fields (d : KmsgLogDir) (h : (buildLogDir d).error ≠ none) :
    (buildLogDir d).totalSizeBytes = 0 ∧ (buildLogDir d).topics = [] ∧
      (buildLogDir d).partitionCount = 0 := by
  rw [buildLogDir_error] at h
  cases he : errorForCode d.errorCode with
  | none => exact absurd he h
  | some e => rw [buildLogDir_of_err d e he]; exact ⟨rfl, rfl, rfl⟩

/-- Unfolding the directory loop: the directories appear in order, and each
rollup is the skip-fold of the corresponding per-directory rollup. -/
theorem brokerDirStep_foldl :
    ∀ (dirs : List KmsgLogDir) (acc : LogDirsByBroker),
      (dirs.foldl brokerDirStep acc).brokerMeta = acc.brokerMeta ∧
      (dirs.foldl brokerDirStep acc).error = acc.error ∧
      (dirs.foldl brokerDirStep acc).logDirs = acc.logDirs ++ dirs.map buildLogDir ∧
      (dirs.foldl brokerDirStep acc).totalSizeBytes
        = (dirs.map buildLogDir).foldl (fun a ld => match ld.error with
            | some _ => a
            | none => i64add a ld.totalSizeBytes) acc.totalSizeBytes ∧
      (dirs.foldl brokerDirStep acc).topicCount
        = (dirs.map buildLogDir).foldl (fun a ld => match ld.error with
            | some _ => a
            | none => i64add a (ld.topics.length : Int)) acc.topicCount ∧
      (dirs.foldl brokerDirStep acc).partitionCount
        = (dirs.map buildLogDir).foldl (fun a ld => match ld.error with
            | some _ => a
            | none => i64add a ld.partitionCount) acc.partitionCount
  | [], acc => by simp
  | d :: rest, acc => by
    simp only [List.foldl_cons, List.map_cons]
    have hstep : brokerDirStep acc d =
        match (buildLogDir d).error with
        | some _ => { acc with logDirs := acc.logDirs ++ [buildLogDir d] }
        | none =>
          { acc with
            logDirs := acc.logDirs ++ [buildLogDir d]
            totalSizeBytes := i64add acc.totalSizeBytes (buildLogDir d).totalSizeBytes
            topicCount := i64add acc.topicCount ((buildLogDir d).topics.length : Int)
            partitionCount := i64add acc.partitionCount (buildLogDir d).partitionCount } := by
      unfold brokerDirStep
      rw [buildLogDir_error]
    rw [hstep]
    cases h : (buildLogDir d).error with
    | some e =>
      have ih := brokerDirStep_foldl rest { acc with logDirs := acc.logDirs ++ [buildLogDir d] }
      simp only [h] at ih ⊢
      obtain ⟨i1, i2, i3, i4, i5, i6⟩ := ih
      refine ⟨i1, i2, ?_, i4, i5, i6⟩
      rw [i3]
      simp
    | none =>
      have ih := brokerDirStep_foldl rest
        { acc with
          logDirs := acc.logDirs ++ [buildLogDir d]
          totalSizeBytes := i64add acc.totalSizeBytes (buildLogDir d).totalSizeBytes
          topicCount := i64add acc.topicCount ((buildLogDir d).topics.length : Int)
          partitionCount := i64add acc.partitionCount (buildLogDir d).partitionCount }
      simp only [h] at ih ⊢
      obtain ⟨i1, i2, i3, i4, i5, i6⟩ := ih
      refine ⟨i1, i2, ?_, i4, i5, i6⟩
      rw [i3]
      simp

theorem buildBrokerLogDirs_of_err (r : DescribeLogDirsResponse) (e : String)
    (h : r.error = some e) :
    buildBrokerLogDirs r =
      { brokerMeta := r.brokerMetadata, error := some e, logDirs := []
        totalSizeBytes := 0, topicCount := 0, partitionCount := 0 } := by
  unfold buildBrokerLogDirs
  rw [h]

theorem buildBrokerLogDirs_of_ok (r : DescribeLogDirsResponse) (h : r.error = none) :
    buildBrokerLogDirs r = r.logDirs.dirs.foldl brokerDirStep
      { brokerMeta := r.brokerMetadata, error := none, logDirs := []
        totalSizeBytes := 0, topicCount := 0, partitionCount := 0 } := by
  unfold buildBrokerLogDirs
  rw [h]

/-- Broker-level rollups: for an error-free broker response, the produced
entry lists every directory in order, and each rollup is the 64-bit sum of
the per-directory values. -/
theorem buildBroker_rollups (r : DescribeLogDirsResponse) (h : r.error = none) :
    (buildBrokerLogDirs r).brokerMeta = r.brokerMetadata ∧
    (buildBrokerLogDirs r).error = none ∧
    (buildBrokerLogDirs r).logDirs = r.logDirs.dirs.map buildLogDir ∧
    (buildBrokerLogDirs r).totalSizeBytes
      = sum64 ((buildBrokerLogDirs r).logDirs.map (·.totalSizeBytes)) ∧
    (buildBrokerLogDirs r).topicCount
      = sum64 ((buildBrokerLogDirs r).logDirs.map (fun d => (d.topics.length : Int))) ∧
    (buildBrokerLogDirs r).partitionCount
      = sum64 ((buildBrokerLogDirs r).logDirs.map (·.partitionCount)) := by
  rw [buildBrokerLogDirs_of_ok r h]
  obtain ⟨h1, h2, h3, h4, h5, h6⟩ :=
    brokerDirStep_foldl r.logDirs.dirs
      { brokerMeta := r.brokerMetadata, error := none, logDirs := []
        totalSizeBytes := 0, topicCount := 0, partitionCount := 0 }
  simp only [List.nil_append] at h3
  refine ⟨h1, h2, h3, ?_, ?_, ?_⟩
  · rw [h4, h3]
    refine foldl_skip_eq_foldl_i64add _ _ 0 inRange64_zero ?_
    intro ld hld herr
    obtain ⟨d, _, rfl⟩ := List.mem_map.mp hld
    exact (buildLogDir_err_fields d herr).1
  · rw [h5, h3]
    refine foldl_skip_eq_foldl_i64add _ _ 0 inRange64_zero ?_
    intro ld hld herr
    obtain ⟨d, _, rfl⟩ := List.mem_map.mp hld
    have := (buildLogDir_err_fields d herr).2.1
    rw [this]
    rfl
  · rw [h6, h3]
    refine foldl_skip_eq_foldl_i64add _ _ 0 inRange64_zero ?_
    intro ld hld herr
    obtain ⟨d, _, rfl⟩ := List.mem_map.mp hld
    exact (buildLogDir_err_fields d herr).2.2

/-- Directory-level rollups: an error-free directory's byte total and
partition count are the 64-bit sums over its topics. -/
theorem logDir_additivity (d : KmsgLogDir) (h : (buildLogDir d).error = none) :
    (buildLogDir d).totalSizeBytes
      = sum64 ((buildLogDir d).topics.map (·.totalSizeBytes)) ∧
    (buildLogDir d).partitionCount
      = sum64 ((buildLogDir d).topics.map (fun t => (t.partitions.length : Int))) := by
  rw [buildLogDir_error] at h
  rw [buildLogDir_of_ok d h]
  exact ⟨rfl, rfl⟩

/-- Topic-level rollup: a topic's byte total is the 64-bit sum of its
partitions' sizes. -/
theorem logDirTopic_additivity (t : KmsgLogDirTopic) :
    (buildLogDirTopic t).totalSizeBytes
      = sum64 ((buildLogDirTopic t).partitions.map (·.sizeBytes)) := by
  unfold buildLogDirTopic
  simp only [List.map_map]
  rfl

/-- Membership in a Go-map after one assignment. -/
theorem mem_goMapInsert (kv : Int × LogDirsByBroker) (m : List (Int × LogDirsByBroker))
    (k : Int) (v : LogDirsByBroker) (h : kv ∈ goMapInsert m k v) :
    kv ∈ m ∨ kv = (k, v) := by
  unfold goMapInsert at h
  by_cases hc : m.any (fun kv => kv.1 = k)
  · rw [if_pos hc] at h
    obtain ⟨kv₀, hkv₀, heq⟩ := List.mem_map.mp h
    by_cases hk : kv₀.1 = k
    · rw [if_pos hk] at heq
      exact Or.inr heq.symm
    · rw [if_neg hk] at heq
      exact Or.inl (heq ▸ hkv₀)
  · rw [if_neg hc] at h
    rcases List.mem_append.mp h with h' | h'
    · exact Or.inl h'
    · exact Or.inr (List.mem_singleton.mp h')

/-- Every value in the aggregation result is the per-broker body applied to
one of the input responses. -/
theorem mem_logDirsByBroker (rs : List DescribeLogDirsResponse)
    (kv : Int × LogDirsByBroker) (h : kv ∈ (logDirsByBroker rs).1) :
    ∃ r ∈ rs, kv = (r.brokerMetadata.nodeID, buildBrokerLogDirs r) := by
  have gen : ∀ (l : List DescribeLogDirsResponse) (m : List (Int × LogDirsByBroker)),
      kv ∈ l.foldl (fun result r =>
        goMapInsert result r.brokerMetadata.nodeID (buildBrokerLogDirs r)) m →
      kv ∈ m ∨ ∃ r ∈ l, kv = (r.brokerMetadata.nodeID, buildBrokerLogDirs r) := by
    intro l
    induction l with
    | nil => intro m hm; exact Or.inl hm
    | cons r rest ih =>
      intro m hm
      rcases ih _ hm with h' | h'
      · rcases mem_goMapInsert kv m _ _ h' with h'' | h''
        · exact Or.inl h''
        · exact Or.inr ⟨r, List.mem_cons_self _ _, h''⟩
      · obtain ⟨r', hr', heq⟩ := h'
        exact Or.inr ⟨r', List.mem_cons_of_mem _ hr', heq⟩
  rcases gen rs [] h with h' | h'
  · exact absurd h' (List.not_mem_nil kv)
  · exact h'

/-- C2: Rollup additivity — in every aggregation result, an error-free
broker entry's TotalSizeBytes is the sum of its LogDirs' TotalSizeBytes
(and TopicCount/PartitionCount add up correspondingly); an error-free
LogDir's TotalSizeBytes (and PartitionCount) is the sum over its topics;
and every LogDirTopic's TotalSizeBytes is the sum of its partitions'
SizeBytes. -/
theorem C2_rollup_additivity (rs : List DescribeLogDirsResponse) (bid : Int)
    (b : LogDirsByBroker) (hmem : (bid, b) ∈ (logDirsByBroker rs).1)
    (hb : b.error = none) :
    b.totalSizeBytes = sum64 (b.logDirs.map (·.totalSizeBytes)) ∧
    b.topicCount = sum64 (b.logDirs.map (fun d => (d.topics.length : Int))) ∧
    b.partitionCount = sum64 (b.logDirs.map (·.partitionCount)) ∧
    (∀ ld ∈ b.logDirs, ld.error = none →
      ld.totalSizeBytes = sum64 (ld.topics.map (·.totalSizeBytes)) ∧
      ld.partitionCount = sum64 (ld.topics.map (fun t => (t.partitions.length : Int)))) ∧
    (∀ ld ∈ b.logDirs, ∀ t ∈ ld.topics,
      t.totalSizeBytes = sum64 (t.partitions.map (·.sizeBytes))) := by
  obtain ⟨r, hr, heq⟩ := mem_logDirsByBroker rs (bid, b) hmem
  have hbr : b = buildBrokerLogDirs r := (Prod.ext_iff.mp heq).2
  cases hre : r.error with
  | some e =>
    rw [hbr, buildBrokerLogDirs_of_err r e hre] at hb
    exact absurd hb (by simp)
  | none =>
    obtain ⟨_, _, hdirs, ht, hc, hp⟩ := buildBroker_rollups r hre
    subst hbr
    refine ⟨ht, hc, hp, ?_, ?_⟩
    · intro ld hld hlde
      rw [hdirs] at hld
      obtain ⟨d, _, rfl⟩ := List.mem_map.mp hld
      exact logDir_additivity d hlde
    · intro ld hld t htop
      rw [hdirs] at hld
      obtain ⟨d, _, rfl⟩ := List.mem_map.mp hld
      cases hde : (buildLogDir d).error with
      | some e =>
        have := (buildLogDir_err_fields d (by rw [hde]; simp)).2.1
        rw [this] at htop
        exact absurd htop (List.not_mem_nil t)
      | none =>
        rw [buildLogDir_error] at hde
        rw [buildLogDir_of_ok d hde] at htop
        obtain ⟨t₀, _, rfl⟩ := List.mem_map.mp htop
        exact logDirTopic_additivity t₀

/-! ## Go-map lemmas -/

theorem goMapInsert_of_not_mem (m : List (Int × LogDirsByBroker)) (k : Int)
    (v : LogDirsByBroker) (h : ∀ kv ∈ m, kv.1 ≠ k) :
    goMapInsert m k v = m ++ [(k, v)] := by
  have hneg : ¬(m.any (fun kv => kv.1 = k) = true) := by
    simp only [List.any_eq_true, decide_eq_true_eq]
    rintro ⟨kv, hkv, hk⟩
    exact h kv hkv hk
  unfold goMapInsert
  rw [if_neg hneg]

theorem mapLookup_cons (k : Int) (v : LogDirsByBroker) (m : List (Int × LogDirsByBroker))
    (k' : Int) :
    mapLookup ((k, v) :: m) k' = if k' = k then some v else mapLookup m k' := by
  unfold mapLookup
  by_cases h : k' = k
  · rw [if_pos h, List.find?_cons_of_pos _ (by simp [h])]
    rfl
  · rw [if_neg h, List.find?_cons_of_neg _ (by simp only [decide_eq_true_eq]; omega)]

theorem find?_map_replace (k k' : Int) (v : LogDirsByBroker) :
    ∀ m : List (Int × LogDirsByBroker),
      ((m.map (fun kv => if kv.1 = k then (k, v) else kv)).find? (fun kv => kv.1 = k'))
      = if k' = k
        then (m.find? (fun kv => kv.1 = k)).map (fun _ => (k, v))
        else m.find? (fun kv => kv.1 = k')
  | [] => by by_cases hk' : k' = k <;> simp [hk']
  | kv :: m' => by
    have ih := find?_map_replace k k' v m'
    by_cases hkv : kv.1 = k
    · by_cases hk' : k' = k
      · subst hk'
        simp [List.find?_cons, hkv]
      · have hne : ¬(k = k') := fun h => hk' h.symm
        have hkvne : ¬(kv.1 = k') := by omega
        simp only [List.map_cons, if_pos hkv]
        rw [List.find?_cons_of_neg _ (by simp only [decide_eq_true_eq]; exact hne), ih]
        simp only [if_neg hk']
        rw [List.find?_cons_of_neg _ (by simp only [decide_eq_true_eq]; exact hkvne)]
    · by_cases hh : kv.1 = k'
      · have hk' : ¬(k' = k) := fun h => hkv (h ▸ hh)
        simp only [List.map_cons, if_neg hkv]
        rw [List.find?_cons_of_pos _ (by simp [hh]), if_neg hk',
          List.find?_cons_of_pos _ (by simp [hh])]
      · simp only [List.map_cons, if_neg hkv]
        rw [List.find?_cons_of_neg _ (by simp [hh]), ih]
        by_cases hk' : k' = k
        · rw [if_pos hk', if_pos hk', List.find?_cons_of_neg _ (by simp [hkv])]
        · rw [if_neg hk', if_neg hk', List.find?_cons_of_neg _ (by simp [hh])]

theorem mapLookup_goMapInsert (m : List (Int × LogDirsByBroker)) (k : Int)
    (v : LogDirsByBroker) (k' : Int) :
    mapLookup (goMapInsert m k v) k' = if k' = k then some v else mapLookup m k' := by
  unfold goMapInsert
  by_cases hc : m.any (fun kv => kv.1 = k) = true
  · rw [if_pos hc]
    unfold mapLookup
    rw [find?_map_replace]
    by_cases hk' : k' = k
    · rw [if_pos hk', if_pos hk']
      obtain ⟨kv, hkv, hkv2⟩ := List.any_eq_true.mp hc
      have hs : (m.find? (fun kv => kv.1 = k)).isSome :=
        List.find?_isSome.mpr ⟨kv, hkv, hkv2⟩
      cases hfind : m.find? (fun kv => kv.1 = k) with
      | none => rw [hfind] at hs; exact absurd hs (by simp)
      | some x => simp
    · rw [if_neg hk', if_neg hk']
  · rw [if_neg hc]
    unfold mapLookup
    rw [List.find?_append]
    by_cases hk' : k' = k
    · subst hk'
      have hnone : m.find? (fun kv => kv.1 = k') = none := by
        rw [List.find?_eq_none]
        intro kv hkv
        simp only [decide_eq_true_eq]
        intro heq
        exact hc (List.any_eq_true.mpr ⟨kv, hkv, by simp [heq]⟩)
      rw [hnone, if_pos rfl, List.find?_cons_of_pos _ (by simp)]
      rfl
    · have hone : ([(k, v)].find? (fun kv => kv.1 = k')) = none := by
        rw [List.find?_eq_none]
        intro kv hkv
        rw [List.mem_singleton.mp hkv]
        simp only [decide_eq_true_eq]
        omega
      rw [hone, if_neg hk']
      cases m.find? (fun kv => kv.1 = k') <;> rfl

/-- With pairwise-distinct broker ids, the aggregation map lists the brokers
in input order, one entry per response. -/
theorem logDirsByBroker_eq_map (rs : List DescribeLogDirsResponse)
    (hnd : rs.Pairwise (fun a b => a.brokerMetadata.nodeID ≠ b.brokerMetadata.nodeID)) :
    (logDirsByBroker rs).1
      = rs.map (fun r => (r.brokerMetadata.nodeID, buildBrokerLogDirs r)) := by
  have gen : ∀ (l : List DescribeLogDirsResponse) (m : List (Int × LogDirsByBroker)),
      l.Pairwise (fun a b => a.brokerMetadata.nodeID ≠ b.brokerMetadata.nodeID) →
      (∀ kv ∈ m, ∀ r ∈ l, kv.1 ≠ r.brokerMetadata.nodeID) →
      l.foldl (fun result r =>
        goMapInsert result r.brokerMetadata.nodeID (buildBrokerLogDirs r)) m
      = m ++ l.map (fun r => (r.brokerMetadata.nodeID, buildBrokerLogDirs r)) := by
    intro l
    induction l with
    | nil => intro m _ _; simp
    | cons r rest ih =>
      intro m hp hm
      obtain ⟨hhead, htail⟩ := List.pairwise_cons.mp hp
      rw [List.foldl_cons,
        goMapInsert_of_not_mem m _ _ (fun kv hkv => hm kv hkv r (List.mem_cons_self _ _)),
        ih (m ++ [(r.brokerMetadata.nodeID, buildBrokerLogDirs r)]) htail ?_]
      · simp
      · intro kv hkv r' hr'
        rcases List.mem_append.mp hkv with h' | h'
        · exact hm kv h' r' (List.mem_cons_of_mem _ hr')
        · rw [List.mem_singleton.mp h']
          exact hhead r' hr'
  exact gen rs [] hnd (by simp)

/-- Looking up a broker's own id in the order-preserving map finds its entry. -/
theorem mapLookup_map_self :
    ∀ (l : List DescribeLogDirsResponse),
      l.Pairwise (fun a b => a.brokerMetadata.nodeID ≠ b.brokerMetadata.nodeID) →
      ∀ r ∈ l,
        mapLookup (l.map (fun r => (r.brokerMetadata.nodeID, buildBrokerLogDirs r)))
            r.brokerMetadata.nodeID
          = some (buildBrokerLogDirs r)
  | [], _, r, hr => absurd hr (List.not_mem_nil r)
  | r₀ :: rest, hp, r, hr => by
    rw [List.map_cons, mapLookup_cons]
    rcases List.mem_cons.mp hr with rfl | hr'
    · rw [if_pos rfl]
    · have hne : r₀.brokerMetadata.nodeID ≠ r.brokerMetadata.nodeID :=
        (List.pairwise_cons.mp hp).1 r hr'
      rw [if_neg (fun h => hne h.symm)]
      exact mapLookup_map_self rest (List.pairwise_cons.mp hp).2 r hr'

/-- Go-map lookup after the whole aggregation fold: the LAST response with a
given broker id determines that id's entry. -/
theorem mapLookup_logDirsByBroker (rs : List DescribeLogDirsResponse) (k : Int) :
    mapLookup (logDirsByBroker rs).1 k
      = (rs.reverse.find? (fun r => r.brokerMetadata.nodeID = k)).map buildBrokerLogDirs := by
  have gen : ∀ (l : List DescribeLogDirsResponse) (m : List (Int × LogDirsByBroker)),
      mapLookup (l.foldl (fun result r =>
        goMapInsert result r.brokerMetadata.nodeID (buildBrokerLogDirs r)) m) k
      = ((l.reverse.find? (fun r => r.brokerMetadata.nodeID = k)).map
          buildBrokerLogDirs).or (mapLookup m k) := by
    intro l
    induction l with
    | nil => intro m; simp
    | cons r rest ih =>
      intro m
      rw [List.foldl_cons, ih, List.reverse_cons, List.find?_append]
      cases hf : rest.reverse.find? (fun r => r.brokerMetadata.nodeID = k) with
      | some r' => simp
      | none =>
        rw [mapLookup_goMapInsert]
        by_cases hk : k = r.brokerMetadata.nodeID
        · rw [if_pos hk, List.find?_cons_of_pos _ (by simp [hk])]
          simp
        · rw [if_neg hk, List.find?_cons_of_neg _ (by simp only [decide_eq_true_eq]; omega)]
          simp
  simp only [logDirsByBroker]
  rw [gen rs []]
  cases (rs.reverse.find? (fun r => r.brokerMetadata.nodeID = k)).map buildBrokerLogDirs <;> rfl

/-- C3: Broker-level failure isolation — with distinct broker ids and some
broker-level failures, the aggregation returns one entry per response and a
nil overall error; an erroring broker's entry keeps its identity and error
with an empty LogDirs list and zero rollups; a non-erroring broker's entry
is exactly what the run restricted to the non-failing brokers produces. -/
theorem C3_broker_failure_isolation (rs : List DescribeLogDirsResponse)
    (hnd : rs.Pairwise (fun a b => a.brokerMetadata.nodeID ≠ b.brokerMetadata.nodeID))
    (_hfail : ∃ r ∈ rs, r.error ≠ none) :
    (logDirsByBroker rs).2 = none ∧
    (logDirsByBroker rs).1.length = rs.length ∧
    (∀ r ∈ rs, ∀ e, r.error = some e →
      mapLookup (logDirsByBroker rs).1 r.brokerMetadata.nodeID
        = some { brokerMeta := r.brokerMetadata, error := some e, logDirs := []
                 totalSizeBytes := 0, topicCount := 0, partitionCount := 0 }) ∧
    (∀ r ∈ rs, r.error = none →
      mapLookup (logDirsByBroker rs).1 r.brokerMetadata.nodeID
        = some (buildBrokerLogDirs r) ∧
      mapLookup (logDirsByBroker (rs.filter (fun x => x.error = none))).1
          r.brokerMetadata.nodeID
        = some (buildBrokerLogDirs r)) := by
  refine ⟨rfl, ?_, ?_, ?_⟩
  · rw [logDirsByBroker_eq_map rs hnd]
    simp
  · intro r hr e he
    rw [logDirsByBroker_eq_map rs hnd, mapLookup_map_self rs hnd r hr,
      buildBrokerLogDirs_of_err r e he]
  · intro r hr he
    constructor
    · rw [logDirsByBroker_eq_map rs hnd, mapLookup_map_self rs hnd r hr]
    · have hnd' : (rs.filter (fun x => x.error = none)).Pairwise
          (fun a b => a.brokerMetadata.nodeID ≠ b.brokerMetadata.nodeID) :=
        List.Pairwise.sublist (List.filter_sublist rs) hnd
      have hmem : r ∈ rs.filter (fun x => x.error = none) :=
        List.mem_filter.mpr ⟨hr, by simp [he]⟩
      rw [logDirsByBroker_eq_map _ hnd', mapLookup_map_self _ hnd' r hmem]

/-- Skipped (error-marked) entries can be dropped from the skip-fold. -/
theorem skipfold_filter (f : LogDir → Int) :
    ∀ (l : List LogDir) (a : Int),
      l.foldl (fun acc ld => match ld.error with
        | some _ => acc
        | none => i64add acc (f ld)) a
      = (l.filter (fun ld => ld.error = none)).foldl (fun acc ld => match ld.error with
          | some _ => acc
          | none => i64add acc (f ld)) a
  | [], _ => rfl
  | ld :: l, a => by
    cases h : ld.error with
    | some e =>
      simp only [List.foldl_cons, List.filter_cons, h]
      rw [if_neg (by simp)]
      exact skipfold_filter f l a
    | none =>
      simp only [List.foldl_cons, List.filter_cons, h]
      rw [if_pos (by simp)]
      simp only [List.foldl_cons, h]
      exact skipfold_filter f l (i64add a (f ld))

/-- Filtering the built directories by "no error" is the same as building
only the raw directories whose status code denotes no error. -/
theorem filter_ok_map_build :
    ∀ dirs : List KmsgLogDir,
      (dirs.map buildLogDir).filter (fun ld => ld.error = none)
      = (dirs.filter (fun d => errorForCode d.errorCode = none)).map buildLogDir
  | [] => rfl
  | d :: dirs => by
    simp only [List.map_cons, List.filter_cons, buildLogDir_error]
    cases h : errorForCode d.errorCode with
    | some e => simp [h, filter_ok_map_build dirs]
    | none => simp [h, filter_ok_map_build dirs]

/-- A 64-bit rollup over all built directories equals the rollup over the
error-free ones alone, provided error-marked directories contribute 0. -/
theorem sum64_filter_ok (dirs : List KmsgLogDir) (f : LogDir → Int)
    (hz : ∀ ld ∈ dirs.map buildLogDir, ld.error ≠ none → f ld = 0) :
    sum64 ((dirs.map buildLogDir).map f)
      = sum64 (((dirs.filter (fun d => errorForCode d.errorCode = none)).map
          buildLogDir).map f) := by
  have hz' : ∀ ld ∈ (dirs.filter (fun d => errorForCode d.errorCode = none)).map buildLogDir,
      ld.error ≠ none → f ld = 0 := by
    intro ld hld herr
    obtain ⟨d, hd, rfl⟩ := List.mem_map.mp hld
    exact hz (buildLogDir d) (List.mem_map_of_mem _ (List.mem_of_mem_filter hd)) herr
  unfold sum64
  rw [← foldl_skip_eq_foldl_i64add f (dirs.map buildLogDir) 0 inRange64_zero hz,
    ← foldl_skip_eq_foldl_i64add f
      ((dirs.filter (fun d => errorForCode d.errorCode = none)).map buildLogDir) 0
      inRange64_zero hz',
    skipfold_filter f (dirs.map buildLogDir) 0, filter_ok_map_build dirs]

/-- C4: Directory-level failure isolation — for an error-free broker
response, every raw directory appears in the output in order; a directory
whose status code denotes an error becomes a LogDir carrying that error
with no topic children and zero rollups; and the broker's rollups equal
those of a run over only the error-free directories, which are themselves
aggregated unchanged. -/
theorem C4_dir_failure_isolation (r : DescribeLogDirsResponse) (h : r.error = none) :
    (buildBrokerLogDirs r).logDirs = r.logDirs.dirs.map buildLogDir ∧
    (∀ d ∈ r.logDirs.dirs, ∀ e, errorForCode d.errorCode = some e →
      buildLogDir d = { error := some e, absolutePath := d.dir, totalSizeBytes := 0
                        topics := [], partitionCount := 0 }) ∧
    (buildBrokerLogDirs (dropErrDirs r)).totalSizeBytes
      = (buildBrokerLogDirs r).totalSizeBytes ∧
    (buildBrokerLogDirs (dropErrDirs r)).topicCount
      = (buildBrokerLogDirs r).topicCount ∧
    (buildBrokerLogDirs (dropErrDirs r)).partitionCount
      = (buildBrokerLogDirs r).partitionCount ∧
    (buildBrokerLogDirs (dropErrDirs r)).logDirs
      = (r.logDirs.dirs.filter (fun d => errorForCode d.errorCode = none)).map
          buildLogDir := by
  obtain ⟨_, _, hdirs, ht, hc, hp⟩ := buildBroker_rollups r h
  obtain ⟨_, _, hdirs', ht', hc', hp'⟩ := buildBroker_rollups (dropErrDirs r) h
  refine ⟨hdirs, fun d _ e he => buildLogDir_of_err d e he, ?_, ?_, ?_, hdirs'⟩
  · rw [ht, ht', hdirs, hdirs']
    exact (sum64_filter_ok r.logDirs.dirs _ (fun ld hld herr => by
      obtain ⟨d, _, rfl⟩ := List.mem_map.mp hld
      exact (buildLogDir_err_fields d herr).1)).symm
  · rw [hc, hc', hdirs, hdirs']
    refine (sum64_filter_ok r.logDirs.dirs _ (fun ld hld herr => ?_)).symm
    obtain ⟨d, _, rfl⟩ := List.mem_map.mp hld
    rw [(buildLogDir_err_fields d herr).2.1]
    rfl
  · rw [hp, hp', hdirs, hdirs']
    exact (sum64_filter_ok r.logDirs.dirs _ (fun ld hld herr => by
      obtain ⟨d, _, rfl⟩ := List.mem_map.mp hld
      exact (buildLogDir_err_fields d herr).2.2)).symm

/-! ## Reassignment translator, duplicate ids, version loading -/

/-- A non-nil kerr error renders to a non-empty message string. -/
theorem kerrMessage_ne_empty (c : Int) (s : String) (h : errorForCode c = some s) :
    s ≠ "" := by
  unfold errorForCode at h
  by_cases hc : c = 0
  · rw [if_pos hc] at h
    exact absurd h (by simp)
  · rw [if_neg hc] at h
    have hs : s = "kafka error code " ++ toString c := (Option.some.inj h).symm
    subst hs
    intro hemp
    have h2 := congrArg String.length hemp
    rw [String.length_append] at h2
    have h3 : ("kafka error code ").length = 17 := rfl
    rw [h3] at h2
    simp at h2

/-- C5 (counterexample): two responses with the same broker NodeID are
accepted — the aggregation returns a nil error and a single entry in which
the second response has silently overwritten the first one's data. -/
theorem C5_counterexample :
    (logDirsByBroker dupResponses).2 = none ∧
    (logDirsByBroker dupResponses).1.length = 1 ∧
    mapLookup (logDirsByBroker dupResponses).1 1 = some broker1Agg ∧
    broker1Agg.error = none := by decide

/-- C5 (amended): duplicate broker NodeIDs are not detected — the
aggregation never returns an error, and each id's entry is determined by
the LAST response carrying that id (earlier responses are silently
overwritten). -/
theorem C5_amended_last_write_wins (rs : List DescribeLogDirsResponse) (k : Int) :
    (logDirsByBroker rs).2 = none ∧
    mapLookup (logDirsByBroker rs).1 k
      = (rs.reverse.find? (fun r => r.brokerMetadata.nodeID = k)).map buildBrokerLogDirs :=
  ⟨rfl, mapLookup_logDirsByBroker rs k⟩

/-- C1: at the spec's round-trip input (adding [4], removing [1], full
replica set [1,2,3,4]) the translation's Replicas field is a copy of
RemovingReplicas ([1]) and differs from the raw full target replica set —
the distinct-field confusion the spec requires to be flagged. -/
theorem C1_replicas_field_copies_removing :
    (translateReassignPartition c1part).replicas = c1part.removingReplicas ∧
    (translateReassignPartition c1part).replicas ≠ c1part.replicas ∧
    ListPartitionReassignments (Except.ok c1sample)
      = Except.ok [{ topicName := "t"
                     partitions := [{ partitionID := 0
                                      addingReplicas := [4]
                                      removingReplicas := [1]
                                      replicas := [1] }] }] := by
  refine ⟨rfl, by decide, rfl⟩

/-- Unfolding of the list translation on a successful adapter call. -/
theorem ListPartitionReassignments_ok (r : KmsgListReassignmentsResponse) :
    ListPartitionReassignments (Except.ok r)
      = match errorForCode r.errorCode with
        | some e => Except.error ("failed to list partition reassignments. Inner error: " ++ e)
        | none => Except.ok (r.topics.map (fun topic =>
            { topicName := topic.topic
              partitions := topic.partitions.map translateReassignPartition })) := rfl

/-- Unfolding of the alter translation on a successful adapter call. -/
theorem AlterPartitionAssignments_ok (r : KmsgAlterResponse) :
    AlterPartitionAssignments (Except.ok r)
      = match errorForCode r.errorCode with
        | some e => Except.error ("failed to reassign partitions. Inner error: " ++ e)
        | none => Except.ok (r.topics.map (fun topic =>
            { topicName := topic.topic
              partitions := topic.partitions.map translateAlterPartition })) := rfl

/-- C6: the list translation fails exactly on a failed cluster-level call
or a non-zero cluster-level error code; otherwise it emits one entry per
raw topic, one per raw partition, preserving the partition id. -/
theorem C6_list_reassignments_contract (call : Except String KmsgListReassignmentsResponse) :
    (∀ e, call = .error e →
      ListPartitionReassignments call
        = .error ("failed to list partition reassignments: " ++ e)) ∧
    (∀ r, call = .ok r → r.errorCode ≠ 0 →
      ∃ m, ListPartitionReassignments call = .error m) ∧
    (∀ r, call = .ok r → r.errorCode = 0 →
      ListPartitionReassignments call
        = .ok (r.topics.map (fun topic =>
            { topicName := topic.topic
              partitions := topic.partitions.map translateReassignPartition })) ∧
      (∀ l, ListPartitionReassignments call = .ok l →
        l.length = r.topics.length) ∧
      (∀ topic ∈ r.topics, ∀ p ∈ topic.partitions,
        (translateReassignPartition p).partitionID = p.partition)) := by
  refine ⟨?_, ?_, ?_⟩
  · rintro e rfl
    rfl
  · rintro r rfl hne
    rw [ListPartitionReassignments_ok]
    cases hc : errorForCode r.errorCode with
    | some m => exact ⟨_, rfl⟩
    | none =>
      unfold errorForCode at hc
      rw [if_neg hne] at hc
      exact absurd hc (by simp)
  · rintro r rfl h0
    have hc : errorForCode r.errorCode = none := by
      unfold errorForCode
      rw [if_pos h0]
    have heq : ListPartitionReassignments (Except.ok r)
        = .ok (r.topics.map (fun topic =>
            { topicName := topic.topic
              partitions := topic.partitions.map translateReassignPartition })) := by
      rw [ListPartitionReassignments_ok, hc]
    refine ⟨heq, ?_, fun topic _ p _ => rfl⟩
    intro l hl
    rw [heq] at hl
    cases hl
    simp

/-- C7: the alter translation fails exactly on a failed call or a non-zero
top-level error code; otherwise each raw partition is translated pointwise,
preserving topic name, partition id and the node-supplied message, with an
empty ErrorCode string exactly on raw code 0. -/
theorem C7_alter_contract (call : Except String KmsgAlterResponse) :
    (∀ e, call = .error e →
      AlterPartitionAssignments call = .error ("failed to reassign partitions: " ++ e)) ∧
    (∀ r, call = .ok r → r.errorCode ≠ 0 →
      ∃ m, AlterPartitionAssignments call = .error m) ∧
    (∀ r, call = .ok r → r.errorCode = 0 →
      AlterPartitionAssignments call
        = .ok (r.topics.map (fun topic =>
            { topicName := topic.topic
              partitions := topic.partitions.map translateAlterPartition })) ∧
      (∀ topic ∈ r.topics, ∀ p ∈ topic.partitions,
        (translateAlterPartition p).partitionID = p.partition ∧
        (translateAlterPartition p).errorMessage = p.errorMessage ∧
        ((translateAlterPartition p).errorCode = "" ↔ p.errorCode = 0))) := by
  refine ⟨?_, ?_, ?_⟩
  · rintro e rfl
    rfl
  · rintro r rfl hne
    rw [AlterPartitionAssignments_ok]
    cases hc : errorForCode r.errorCode with
    | some m => exact ⟨_, rfl⟩
    | none =>
      unfold errorForCode at hc
      rw [if_neg hne] at hc
      exact absurd hc (by simp)
  · rintro r rfl h0
    have hc : errorForCode r.errorCode = none := by
      unfold errorForCode
      rw [if_pos h0]
    refine ⟨?_, ?_⟩
    · rw [AlterPartitionAssignments_ok, hc]
    · intro topic _ p _
      refine ⟨rfl, rfl, ?_⟩
      unfold translateAlterPartition
      cases hpc : errorForCode p.errorCode with
      | some e =>
        constructor
        · intro hemp
          exact absurd hemp (kerrMessage_ne_empty p.errorCode e hpc)
        · intro hp0
          unfold errorForCode at hpc
          rw [if_pos hp0] at hpc
          exact absurd hpc (by simp)
      | none =>
        constructor
        · intro _
          by_contra hp0
          unfold errorForCode at hpc
          rw [if_neg hp0] at hpc
          exact absurd hpc (by simp)
        · intro _
          rfl

/-- C10: `loadVersionInfo` reaches the unconditional `panic("todo")` for
every environment, so it never returns a versionInfo value and everything
after the panic is dead code. -/
theorem C10_loadVersionInfo_always_panics (env : String → String) :
    loadVersionInfo env = Except.error "todo" := rfl

/-! ## Handler lemmas -/

/-- Characterisation of a successful topic loop: the full list is every
topic annotated with its allowed actions (hidden ones included), both hooks
ran error-free on every topic, and every visible entry is the annotated
form of some can-see topic. -/
theorem processTopics_ok_spec (hooks : OwlHooks) :
    ∀ (topics allT vis : List TopicSummary),
      processTopics hooks topics = .ok (allT, vis) →
      allT = topics.map (fun t =>
        { t with allowedActions := (hooks.allowedTopicActions t.topicName).1 }) ∧
      (∀ t ∈ topics, (hooks.canSeeTopic t.topicName).2 = none ∧
        (hooks.allowedTopicActions t.topicName).2 = none) ∧
      (∀ v ∈ vis, ∃ t ∈ topics, (hooks.canSeeTopic t.topicName).1 = true ∧
        v = { t with allowedActions := (hooks.allowedTopicActions t.topicName).1 })
  | [], allT, vis, h => by
    simp only [processTopics, Except.ok.injEq, Prod.mk.injEq] at h
    obtain ⟨h4, h5⟩ := h
    subst h4
    subst h5
    simp
  | topic :: rest, allT, vis, h => by
    cases h1 : (hooks.canSeeTopic topic.topicName).2 with
    | some e => simp [processTopics, h1] at h
    | none =>
    cases h2 : (hooks.allowedTopicActions topic.topicName).2 with
    | some e => simp [processTopics, h1, h2] at h
    | none =>
    cases h3 : processTopics hooks rest with
    | error e => simp [processTopics, h1, h2, h3] at h
    | ok x =>
    obtain ⟨allT', vis'⟩ := x
    obtain ⟨ih1, ih2, ih3⟩ := processTopics_ok_spec hooks rest allT' vis' h3
    simp only [processTopics, h1, h2, h3, Except.ok.injEq, Prod.mk.injEq] at h
    obtain ⟨h4, h5⟩ := h
    subst h4
    subst h5
    refine ⟨?_, ?_, ?_⟩
    · rw [List.map_cons, ← ih1]
    · intro t ht
      rcases List.mem_cons.mp ht with rfl | ht'
      · exact ⟨h1, h2⟩
      · exact ih2 t ht'
    · intro v hv
      by_cases hc : (hooks.canSeeTopic topic.topicName).1 = true
      · rw [if_pos hc] at hv
        rcases List.mem_cons.mp hv with rfl | hv'
        · exact ⟨topic, List.mem_cons_self _ _, hc, rfl⟩
        · obtain ⟨t, ht, hct, hvt⟩ := ih3 v hv'
          exact ⟨t, List.mem_cons_of_mem _ ht, hct, hvt⟩
      · rw [if_neg hc] at hv
        obtain ⟨t, ht, hct, hvt⟩ := ih3 v hv
        exact ⟨t, List.mem_cons_of_mem _ ht, hct, hvt⟩

/-- If every topic's hooks return no error, the topic loop succeeds. -/
theorem processTopics_total (hooks : OwlHooks) :
    ∀ topics : List TopicSummary,
      (∀ t ∈ topics, (hooks.canSeeTopic t.topicName).2 = none ∧
        (hooks.allowedTopicActions t.topicName).2 = none) →
      ∃ x, processTopics hooks topics = .ok x
  | [], _ => ⟨([], []), rfl⟩
  | topic :: rest, h => by
    obtain ⟨h1, h2⟩ := h topic (List.mem_cons_self _ _)
    obtain ⟨⟨allT', vis'⟩, h3⟩ :=
      processTopics_total hooks rest (fun t ht => h t (List.mem_cons_of_mem _ ht))
    exact ⟨({ topic with allowedActions := (hooks.allowedTopicActions topic.topicName).1 } :: allT',
        if (hooks.canSeeTopic topic.topicName).1 then
          { topic with allowedActions := (hooks.allowedTopicActions topic.topicName).1 } :: vis'
        else vis'),
      by simp [processTopics, h1, h2, h3]⟩

/-- Characterisation of a successful group loop: every visible entry is the
annotated form of some can-see group (hidden groups are skipped before
their actions hook is consulted). -/
theorem processGroups_ok_spec (hooks : OwlHooks) :
    ∀ (groups vis : List ConsumerGroupOverview),
      processGroups hooks groups = .ok vis →
      ∀ v ∈ vis, ∃ g ∈ groups, (hooks.canSeeConsumerGroup g.groupID).1 = true ∧
        v = { g with allowedActions := (hooks.allowedConsumerGroupActions g.groupID).1 }
  | [], vis, h => by
    simp only [processGroups, Except.ok.injEq] at h
    subst h
    simp
  | group :: rest, vis, h => by
    cases h1 : (hooks.canSeeConsumerGroup group.groupID).2 with
    | some e => simp [processGroups, h1] at h
    | none =>
    by_cases hc : (hooks.canSeeConsumerGroup group.groupID).1 = true
    · cases h2 : (hooks.allowedConsumerGroupActions group.groupID).2 with
      | some e => simp [processGroups, h1, hc, h2] at h
      | none =>
      cases h3 : processGroups hooks rest with
      | error e => simp [processGroups, h1, hc, h2, h3] at h
      | ok vis' =>
      have ih := processGroups_ok_spec hooks rest vis' h3
      simp only [processGroups, h1, hc, h2, h3, if_true, Except.ok.injEq] at h
      subst h
      intro v hv
      rcases List.mem_cons.mp hv with rfl | hv'
      · exact ⟨group, List.mem_cons_self _ _, hc, rfl⟩
      · obtain ⟨g, hg, hcg, hvg⟩ := ih v hv'
        exact ⟨g, List.mem_cons_of_mem _ hg, hcg, hvg⟩
    · have heq : processGroups hooks (group :: rest) = processGroups hooks rest := by
        simp [processGroups, h1, hc]
      rw [heq] at h
      intro v hv
      obtain ⟨g, hg, hcg, hvg⟩ := processGroups_ok_spec hooks rest vis h v hv
      exact ⟨g, List.mem_cons_of_mem _ hg, hcg, hvg⟩

/-- If the can-see hook never errors and the actions hook never errors on a
VISIBLE group, the group loop succeeds — errors of the actions hook on
hidden groups are never observed. -/
theorem processGroups_total (hooks : OwlHooks) :
    ∀ groups : List ConsumerGroupOverview,
      (∀ g ∈ groups, (hooks.canSeeConsumerGroup g.groupID).2 = none) →
      (∀ g ∈ groups, (hooks.canSeeConsumerGroup g.groupID).1 = true →
        (hooks.allowedConsumerGroupActions g.groupID).2 = none) →
      ∃ vis, processGroups hooks groups = .ok vis
  | [], _, _ => ⟨[], rfl⟩
  | group :: rest, hsee, hact => by
    have h1 := hsee group (List.mem_cons_self _ _)
    obtain ⟨vis', h3⟩ := processGroups_total hooks rest
      (fun g hg => hsee g (List.mem_cons_of_mem _ hg))
      (fun g hg => hact g (List.mem_cons_of_mem _ hg))
    by_cases hc : (hooks.canSeeConsumerGroup group.groupID).1 = true
    · have h2 := hact group (List.mem_cons_self _ _) hc
      exact ⟨{ group with
          allowedActions := (hooks.allowedConsumerGroupActions group.groupID).1 } :: vis',
        by simp [processGroups, h1, h2, hc, h3]⟩
    · exact ⟨vis', by simp [processGroups, h1, hc, h3]⟩

/-- A successful topics response comes from a successful loop run with the
same visible list. -/
theorem handleGetTopics_ok (hooks : OwlHooks) (topics visible : List TopicSummary)
    (h : handleGetTopics (.ok topics) hooks = .ok visible) :
    ∃ allT, processTopics hooks topics = .ok (allT, visible) := by
  cases h3 : processTopics hooks topics with
  | error e => simp [handleGetTopics, h3] at h
  | ok x =>
    obtain ⟨a, v⟩ := x
    simp only [handleGetTopics, h3, Except.ok.injEq] at h
    subst h
    exact ⟨a, rfl⟩

/-- A successful groups response comes from a successful loop run. -/
theorem handleGetConsumerGroups_ok (hooks : OwlHooks)
    (groups visible : List ConsumerGroupOverview)
    (h : handleGetConsumerGroups (.ok groups) hooks = .ok visible) :
    processGroups hooks groups = .ok visible := by
  cases h3 : processGroups hooks groups with
  | error e => simp [handleGetConsumerGroups, h3] at h
  | ok v =>
    simp only [handleGetConsumerGroups, h3, Except.ok.injEq] at h
    subst h
    exact rfl

/-- C8: Authorization denial is not an error — in both overview entry
points a resource whose can-see check yields false is absent from the
returned collection while the call still succeeds when the hooks themselves
return no error, and every returned resource carries exactly the
allowed-actions set the Authorization Gate reported for it. -/
theorem C8_auth_denial_silent_omission (hooks : OwlHooks) :
    (∀ topics visible, handleGetTopics (.ok topics) hooks = .ok visible →
      (∀ t ∈ topics, (hooks.canSeeTopic t.topicName).1 = false →
        ∀ v ∈ visible, v.topicName ≠ t.topicName) ∧
      (∀ v ∈ visible, (hooks.canSeeTopic v.topicName).1 = true ∧
        (hooks.allowedTopicActions v.topicName).1 = v.allowedActions)) ∧
    (∀ topics : List TopicSummary,
      (∀ t ∈ topics, (hooks.canSeeTopic t.topicName).2 = none ∧
        (hooks.allowedTopicActions t.topicName).2 = none) →
      ∃ visible, handleGetTopics (.ok topics) hooks = .ok visible) ∧
    (∀ groups visible, handleGetConsumerGroups (.ok groups) hooks = .ok visible →
      (∀ g ∈ groups, (hooks.canSeeConsumerGroup g.groupID).1 = false →
        ∀ v ∈ visible, v.groupID ≠ g.groupID) ∧
      (∀ v ∈ visible, (hooks.canSeeConsumerGroup v.groupID).1 = true ∧
        (hooks.allowedConsumerGroupActions v.groupID).1 = v.allowedActions)) ∧
    (∀ groups : List ConsumerGroupOverview,
      (∀ g ∈ groups, (hooks.canSeeConsumerGroup g.groupID).2 = none) →
      (∀ g ∈ groups, (hooks.canSeeConsumerGroup g.groupID).1 = true →
        (hooks.allowedConsumerGroupActions g.groupID).2 = none) →
      ∃ visible, handleGetConsumerGroups (.ok groups) hooks = .ok visible) := by
  refine ⟨?_, ?_, ?_, ?_⟩
  · intro topics visible h
    obtain ⟨allT, hp⟩ := handleGetTopics_ok hooks topics visible h
    obtain ⟨_, _, hvis⟩ := processTopics_ok_spec hooks topics allT visible hp
    constructor
    · intro t ht hfalse v hv hname
      obtain ⟨t', ht', hct', rfl⟩ := hvis v hv
      have hnm : t'.topicName = t.topicName := hname
      rw [hnm] at hct'
      rw [hct'] at hfalse
      cases hfalse
    · intro v hv
      obtain ⟨t', ht', hct', rfl⟩ := hvis v hv
      exact ⟨hct', rfl⟩
  · intro topics hfree
    obtain ⟨⟨allT, vis⟩, hp⟩ := processTopics_total hooks topics hfree
    exact ⟨vis, by simp [handleGetTopics, hp]⟩
  · intro groups visible h
    have hp := handleGetConsumerGroups_ok hooks groups visible h
    have hvis := processGroups_ok_spec hooks groups visible hp
    constructor
    · intro g hg hfalse v hv hname
      obtain ⟨g', hg', hcg', rfl⟩ := hvis v hv
      have hnm : g'.groupID = g.groupID := hname
      rw [hnm] at hcg'
      rw [hcg'] at hfalse
      cases hfalse
    · intro v hv
      obtain ⟨g', hg', hcg', rfl⟩ := hvis v hv
      exact ⟨hcg', rfl⟩
  · intro groups hsee hact
    obtain ⟨vis, hp⟩ := processGroups_total hooks groups hsee hact
    exact ⟨vis, by simp [handleGetConsumerGroups, hp]⟩

/-- C9: in the topics handler the allowed-actions hook runs for EVERY
aggregated topic — the full (pre-filter) list is each topic annotated, and
a successful run implies both hooks returned no error on every topic,
hidden or visible (so a hook error anywhere aborts the response, stated
directly in the last topics conjunct); the groups handler, by contrast,
skips hidden groups before consulting their actions hook, so actions-hook
errors on hidden groups never surface. -/
theorem C9_hidden_topics_annotated_groups_skipped (hooks : OwlHooks) :
    (∀ topics allT vis, processTopics hooks topics = .ok (allT, vis) →
      allT = topics.map (fun t =>
        { t with allowedActions := (hooks.allowedTopicActions t.topicName).1 })) ∧
    (∀ topics x, processTopics hooks topics = .ok x →
      ∀ t ∈ topics, (hooks.canSeeTopic t.topicName).2 = none ∧
        (hooks.allowedTopicActions t.topicName).2 = none) ∧
    (∀ topics : List TopicSummary,
      (∃ t ∈ topics, (hooks.allowedTopicActions t.topicName).2 ≠ none) →
      ∀ visible, handleGetTopics (.ok topics) hooks ≠ .ok visible) ∧
    (∀ groups : List ConsumerGroupOverview,
      (∀ g ∈ groups, (hooks.canSeeConsumerGroup g.groupID).2 = none) →
      (∀ g ∈ groups, (hooks.canSeeConsumerGroup g.groupID).1 = true →
        (hooks.allowedConsumerGroupActions g.groupID).2 = none) →
      ∃ vis, processGroups hooks groups = .ok vis) := by
  refine ⟨?_, ?_, ?_, ?_⟩
  · intro topics allT vis h
    exact (processTopics_ok_spec hooks topics allT vis h).1
  · intro topics x h
    obtain ⟨a, v⟩ := x
    exact (processTopics_ok_spec hooks topics a v h).2.1
  · intro topics hbad visible h
    obtain ⟨t, ht, htbad⟩ := hbad
    obtain ⟨allT, hp⟩ := handleGetTopics_ok hooks topics visible h
    exact htbad ((processTopics_ok_spec hooks topics allT visible hp).2.1 t ht).2
  · exact processGroups_total hooks

/-! ## Concrete instantiations -/

/-- C2 instantiated on the spec scenario: broker 1's aggregate satisfies
every rollup-additivity equation. -/
theorem C2_witness :
    ((1 : Int), broker1Agg) ∈ (logDirsByBroker sampleResponses).1 ∧
    broker1Agg.error = none ∧
    (broker1Agg.totalSizeBytes = sum64 (broker1Agg.logDirs.map (·.totalSizeBytes)) ∧
     broker1Agg.topicCount
       = sum64 (broker1Agg.logDirs.map (fun d => (d.topics.length : Int))) ∧
     broker1Agg.partitionCount = sum64 (broker1Agg.logDirs.map (·.partitionCount)) ∧
     (∀ ld ∈ broker1Agg.logDirs, ld.error = none →
       ld.totalSizeBytes = sum64 (ld.topics.map (·.totalSizeBytes)) ∧
       ld.partitionCount = sum64 (ld.topics.map (fun t => (t.partitions.length : Int)))) ∧
     (∀ ld ∈ broker1Agg.logDirs, ∀ t ∈ ld.topics,
       t.totalSizeBytes = sum64 (t.partitions.map (·.sizeBytes)))) :=
  ⟨by decide, by decide,
   C2_rollup_additivity sampleResponses 1 broker1Agg (by decide) (by decide)⟩

/-- C3 instantiated on the spec scenario: 3 entries, nil error, broker 2's
entry is the zeroed error record, brokers 1 and 3 match the no-failure
baseline. -/
theorem C3_witness :
    sampleResponses.Pairwise
      (fun a b => a.brokerMetadata.nodeID ≠ b.brokerMetadata.nodeID) ∧
    (∃ r ∈ sampleResponses, r.error ≠ none) ∧
    ((logDirsByBroker sampleResponses).2 = none ∧
     (logDirsByBroker sampleResponses).1.length = sampleResponses.length ∧
     (∀ r ∈ sampleResponses, ∀ e, r.error = some e →
       mapLookup (logDirsByBroker sampleResponses).1 r.brokerMetadata.nodeID
         = some { brokerMeta := r.brokerMetadata, error := some e, logDirs := []
                  totalSizeBytes := 0, topicCount := 0, partitionCount := 0 }) ∧
     (∀ r ∈ sampleResponses, r.error = none →
       mapLookup (logDirsByBroker sampleResponses).1 r.brokerMetadata.nodeID
         = some (buildBrokerLogDirs r) ∧
       mapLookup (logDirsByBroker (sampleResponses.filter (fun x => x.error = none))).1
           r.brokerMetadata.nodeID
         = some (buildBrokerLogDirs r))) :=
  ⟨by decide, by decide,
   C3_broker_failure_isolation sampleResponses (by decide) (by decide)⟩

/-- C4 instantiated on broker 1 of the spec scenario. -/
theorem C4_witness :
    resp1.error = none ∧
    ((buildBrokerLogDirs resp1).logDirs = resp1.logDirs.dirs.map buildLogDir ∧
     (∀ d ∈ resp1.logDirs.dirs, ∀ e, errorForCode d.errorCode = some e →
       buildLogDir d = { error := some e, absolutePath := d.dir, totalSizeBytes := 0
                         topics := [], partitionCount := 0 }) ∧
     (buildBrokerLogDirs (dropErrDirs resp1)).totalSizeBytes
       = (buildBrokerLogDirs resp1).totalSizeBytes ∧
     (buildBrokerLogDirs (dropErrDirs resp1)).topicCount
       = (buildBrokerLogDirs resp1).topicCount ∧
     (buildBrokerLogDirs (dropErrDirs resp1)).partitionCount
       = (buildBrokerLogDirs resp1).partitionCount ∧
     (buildBrokerLogDirs (dropErrDirs resp1)).logDirs
       = (resp1.logDirs.dirs.filter (fun d => errorForCode d.errorCode = none)).map
           buildLogDir) :=
  ⟨rfl, C4_dir_failure_isolation resp1 rfl⟩

/-- C6 instantiated on a successful listing with error code 0. -/
theorem C6_witness :
    c1sample.errorCode = 0 ∧
    ListPartitionReassignments (Except.ok c1sample)
      = Except.ok (c1sample.topics.map (fun topic =>
          { topicName := topic.topic
            partitions := topic.partitions.map translateReassignPartition })) :=
  ⟨rfl, ((C6_list_reassignments_contract (Except.ok c1sample)).2.2 c1sample rfl rfl).1⟩

/-- C7 instantiated on a successful alter response with one accepted and
one erroring partition. -/
theorem C7_witness :
    c7sample.errorCode = 0 ∧
    AlterPartitionAssignments (Except.ok c7sample)
      = Except.ok (c7sample.topics.map (fun topic =>
          { topicName := topic.topic
            partitions := topic.partitions.map translateAlterPartition })) ∧
    (∀ topic ∈ c7sample.topics, ∀ p ∈ topic.partitions,
      (translateAlterPartition p).partitionID = p.partition ∧
      (translateAlterPartition p).errorMessage = p.errorMessage ∧
      ((translateAlterPartition p).errorCode = "" ↔ p.errorCode = 0)) :=
  ⟨rfl, ((C7_alter_contract (Except.ok c7sample)).2.2 c7sample rfl rfl).1,
   ((C7_alter_contract (Except.ok c7sample)).2.2 c7sample rfl rfl).2⟩

/-- C8 instantiated: topic "secret" and group "hidden" are silently absent
while the calls succeed, and every returned resource carries the hook's
allowed-actions set. -/
theorem C8_witness :
    handleGetTopics (Except.ok sampleTopics) sampleHooks
      = Except.ok [{ topicName := "orders", allowedActions := ["seeTopic", "orders"]
                     info := "x" }] ∧
    (∀ v ∈ [{ topicName := "orders", allowedActions := ["seeTopic", "orders"]
              info := "x" : TopicSummary }],
      (sampleHooks.canSeeTopic v.topicName).1 = true ∧
      (sampleHooks.allowedTopicActions v.topicName).1 = v.allowedActions) ∧
    handleGetConsumerGroups (Except.ok sampleGroups) sampleHooks
      = Except.ok [{ groupID := "g2", allowedActions := ["seeGroup"], info := "y" }] ∧
    (∀ v ∈ [{ groupID := "g2", allowedActions := ["seeGroup"]
              info := "y" : ConsumerGroupOverview }],
      (sampleHooks.canSeeConsumerGroup v.groupID).1 = true ∧
      (sampleHooks.allowedConsumerGroupActions v.groupID).1 = v.allowedActions) :=
  ⟨by rfl,
   ((C8_auth_denial_silent_omission sampleHooks).1 sampleTopics
     [{ topicName := "orders", allowedActions := ["seeTopic", "orders"], info := "x" }]
     (by rfl)).2,
   by rfl,
   ((C8_auth_denial_silent_omission sampleHooks).2.2.1 sampleGroups
     [{ groupID := "g2", allowedActions := ["seeGroup"], info := "y" }]
     (by rfl)).2⟩

/-- C9 instantiated: the hidden topic "secret" is annotated in the full
list even though it is filtered from the visible list, and the group loop
succeeds although the actions hook FAILS on the hidden group "hidden". -/
theorem C9_witness :
    processTopics sampleHooks sampleTopics
      = Except.ok
          ([{ topicName := "orders", allowedActions := ["seeTopic", "orders"], info := "x" },
            { topicName := "secret", allowedActions := ["seeTopic", "secret"], info := "y" }],
           [{ topicName := "orders", allowedActions := ["seeTopic", "orders"], info := "x" }]) ∧
    ([{ topicName := "orders", allowedActions := ["seeTopic", "orders"], info := "x" },
      { topicName := "secret", allowedActions := ["seeTopic", "secret"], info := "y" }]
      : List TopicSummary)
      = sampleTopics.map (fun t =>
          { t with allowedActions := (sampleHooks.allowedTopicActions t.topicName).1 }) ∧
    (sampleHooks.allowedConsumerGroupActions "hidden").2 ≠ none ∧
    (∃ vis, processGroups sampleHooks sampleGroups = Except.ok vis) :=
  ⟨by rfl,
   (C9_hidden_topics_annotated_groups_skipped sampleHooks).1 sampleTopics
     [{ topicName := "orders", allowedActions := ["seeTopic", "orders"], info := "x" },
      { topicName := "secret", allowedActions := ["seeTopic", "secret"], info := "y" }]
     [{ topicName := "orders", allowedActions := ["seeTopic", "orders"], info := "x" }]
     (by rfl),
   by decide,
   (C9_hidden_topics_annotated_groups_skipped sampleHooks).2.2.2 sampleGroups
     (by decide) (by decide)⟩

end Kowl
